import Mathlib

/-!
Verification of the windowing, normalization and parsing layer of
`neuralforecast/common/_base_windows.py` (class `BaseWindows`).

The Python code is shallowly embedded: tensors become nested lists of
rationals (`List (List (List ℚ))`, indexed series × channel × time for
batches and window × time × channel for window batches), pandas index
lookups become `Option`-returning functions, fallible methods return
`Except String`, and `np.random.choice` becomes an explicit oracle
parameter `rng : ℕ → ℕ → Bool → List ℕ` (population size, sample size,
replace flag).
-/

namespace BaseWindows

/-- Python slice `xs[-k:]`.  Note Python's `-0` quirk: `xs[-0:] = xs[0:]`
is the whole list, while for `k > 0` it is the trailing `k` elements
(clamped to the list length). -/
def pySliceFromNeg (k : ℕ) (xs : List α) : List α :=
  if k = 0 then xs else xs.drop (xs.length - k)

/-- Python slice `xs[:-k]`.  For `k = 0` this is `xs[:0] = []`; for
`k > 0` it is everything but the trailing `k` elements. -/
def pySliceToNeg (k : ℕ) (xs : List α) : List α :=
  if k = 0 then [] else xs.take (xs.length - k)

/-- Python in-place `xs[-k:] = 0` on a 1-D float sequence. -/
def pyZeroTail (k : ℕ) (xs : List ℚ) : List ℚ :=
  (pySliceToNeg k xs) ++ List.replicate (xs.length - (pySliceToNeg k xs).length) 0

/-- `pandas.Index.get_loc`: index of the first occurrence of `name`,
`none` (a `KeyError` in Python) when absent. -/
def get_loc (cols : List String) (name : String) : Option ℕ :=
  match cols with
  | [] => none
  | c :: rest => if c = name then some 0 else (get_loc rest name).map (· + 1)

/-- `pandas.Index.get_indexer`: positions of the names, with the pandas
sentinel `-1` for a name absent from the index. -/
def get_indexer (cols : List String) (names : List String) : List ℤ :=
  names.map (fun n =>
    match get_loc cols n with
    | some i => (i : ℤ)
    | none => -1)

/-- Torch integer indexing along a dimension: a negative index counts
from the end (`-1` is the last position). -/
def torchIndexQ (xs : List ℚ) (i : ℤ) : ℚ :=
  if i < 0 then xs.getD (xs.length - (-i).toNat) 0 else xs.getD i.toNat 0

/-- Boolean-mask indexing `xs[conds]` where `conds` is a boolean tensor
computed positionally over `xs`. -/
def boolMask (conds : List Bool) (xs : List α) : List α :=
  ((conds.zip xs).filter (fun p => p.1)).map (fun p => p.2)

/-- Number of windows produced by `Tensor.unfold(dim, size, step)` on a
dimension of length `T`. -/
def numWindows (T size step : ℕ) : ℕ :=
  if size ≤ T then (T - size) / step + 1 else 0

/-- `torch.repeat_interleave(rows, repeats = k, dim = 0)`. -/
def repeatInterleave (k : ℕ) (rows : List (List ℚ)) : List (List ℚ) :=
  (rows.map (fun r => List.replicate k r)).flatten

/-- Length of the time axis of a `[B, C, T]` tensor (uniform across
series and channels for a real tensor; we read it off the first
channel of the first series). -/
def batchTimeLen (temporal : List (List (List ℚ))) : ℕ :=
  ((temporal.headD []).headD []).length

/-- The windows of one series: `unfold` on the time axis followed by the
permute/reshape to time-major rows of channels, as in
`windows.permute(0, 2, 3, 1).reshape(-1, window_size, C)`. -/
def seriesToWindows (size step T : ℕ) (chs : List (List ℚ)) : List (List (List ℚ)) :=
  (List.range (numWindows T size step)).map (fun w =>
    (List.range size).map (fun t => chs.map (fun ch => ch.getD (w * step + t) 0)))

/-- All windows of a `[B, C, T]` tensor, flattened to
`[B * Ws, window_size, C]` (series-major, as the reshape does). -/
def makeWindows (size step : ℕ) (temporal : List (List (List ℚ))) : List (List (List ℚ)) :=
  (temporal.map (fun chs => seriesToWindows size step (batchTimeLen temporal) chs)).flatten

/-- `nn.ConstantPad1d((0, h), 0)`: zero-pad every channel's trailing
edge by `h`. -/
def padBatch (h : ℕ) (temporal : List (List (List ℚ))) : List (List (List ℚ)) :=
  temporal.map (fun chs => chs.map (fun ch => ch ++ List.replicate h 0))

/-- The hyperparameters of `BaseWindows` that the windowing layer reads
(`windows_batch_size = none` models `windows_batch_size=None`). -/
structure Model where
  h : ℕ
  input_size : ℕ
  windows_batch_size : Option ℕ
  step_size : ℕ
  futr_exog_list : List String
  hist_exog_list : List String
  stat_exog_list : List String
  val_size : ℕ
  test_size : ℕ
  predict_step_size : ℕ
deriving Repr

/-- One input batch: `temporal` is `[B, C, T]`, `temporal_cols` the
channel schema, `static` the optional `[B, S]` static covariates. -/
structure Batch where
  temporal : List (List (List ℚ))
  temporal_cols : List String
  static : Option (List (List ℚ))
  static_cols : Option (List String)
deriving Repr

/-- The `windows_batch` dict returned by `_create_windows`:
`temporal` is `[windows, window_size, C]`. -/
structure WindowsBatch where
  temporal : List (List (List ℚ))
  temporal_cols : List String
  static : Option (List (List ℚ))
  static_cols : Option (List String)
deriving Repr, DecidableEq

/-- The training-mode temporal tensor: cut the trailing
`val_size + test_size` holdout span (only when positive, as the code
guards), then zero-pad the trailing edge by `h` with `self.padder`. -/
def trainTemporal (m : Model) (batch : Batch) : List (List (List ℚ)) :=
  let cut :=
    if 0 < m.val_size + m.test_size then
      batch.temporal.map (fun chs => chs.map (fun ch =>
        pySliceToNeg (m.val_size + m.test_size) ch))
    else batch.temporal
  padBatch m.h cut

/-- `windows.shape[2]` in the training branch: windows produced per
series. -/
def windowsPerSerie (m : Model) (batch : Batch) : ℕ :=
  numWindows (batchTimeLen (trainTemporal m batch)) (m.input_size + m.h) m.step_size

/-- The `[B * Ws, L + h, C]` candidate windows of the training branch,
before the validity filter. -/
def trainCandidates (m : Model) (batch : Batch) : List (List (List ℚ)) :=
  makeWindows (m.input_size + m.h) m.step_size (trainTemporal m batch)

/-- The `available_mask` column of one window (`window[:, aidx]`). -/
def maskColumn (aidx : ℕ) (w : List (List ℚ)) : List ℚ :=
  w.map (fun row => row.getD aidx 0)

/-- `final_condition` for one window: the horizon slice
`window[-h:, aidx]` has positive mask sum (`sample_condition`) and the
encoder slice `window[:-h, aidx]` has positive mask sum
(`available_condition`). -/
def finalCondition (h aidx : ℕ) (w : List (List ℚ)) : Bool :=
  decide (0 < (pySliceFromNeg h (maskColumn aidx w)).sum) &&
  decide (0 < (pySliceToNeg h (maskColumn aidx w)).sum)

/-- The boolean `final_condition` tensor over all candidate windows. -/
def trainConds (m : Model) (batch : Batch) (aidx : ℕ) : List Bool :=
  (trainCandidates m batch).map (finalCondition m.h aidx)

/-- `_create_windows(batch, step='train')`: cut/pad, unfold, reshape,
validity-filter, replicate-and-filter statics, raise on an empty pool,
then subsample `windows_batch_size` indices via `np.random.choice`
(the `rng` oracle), applying the same indices to the statics. -/
def _create_windows_train (m : Model) (batch : Batch)
    (rng : ℕ → ℕ → Bool → List ℕ) : Except String WindowsBatch :=
  match get_loc batch.temporal_cols "available_mask" with
  | none => .error "KeyError: available_mask"
  | some aidx =>
    let conds := trainConds m batch aidx
    let windows := boolMask conds (trainCandidates m batch)
    let static := batch.static.map (fun s =>
      boolMask conds (repeatInterleave (windowsPerSerie m batch) s))
    if conds.count true = 0 then
      .error "No windows available for training"
    else
      match m.windows_batch_size with
      | none =>
          .ok ⟨windows, batch.temporal_cols, static, batch.static_cols⟩
      | some c =>
          let w_idxs := rng windows.length c (decide (windows.length < c))
          .ok ⟨w_idxs.map (fun i => windows.getD i []),
               batch.temporal_cols,
               static.map (fun s => w_idxs.map (fun i => s.getD i [])),
               batch.static_cols⟩

/-- The predict-mode slice `temporal[:, :, -input_size - test_size:]`. -/
def predictTemporal (m : Model) (batch : Batch) : List (List (List ℚ)) :=
  batch.temporal.map (fun chs => chs.map (fun ch =>
    pySliceFromNeg (m.input_size + m.test_size) ch))

/-- The predict-mode tensor after the conditional trailing pad: padded
by `h` iff `test_size == 0` and `futr_exog_list` is empty. -/
def predictPadded (m : Model) (batch : Batch) : List (List (List ℚ)) :=
  if m.test_size = 0 ∧ m.futr_exog_list = [] then
    padBatch m.h (predictTemporal m batch)
  else predictTemporal m batch

/-- `_create_windows(batch, step='predict')`: trailing slice,
conditional pad, unfold with `predict_step_size`, reshape, replicate
statics.  No filtering, no subsampling, no failure path. -/
def _create_windows_predict (m : Model) (batch : Batch) : WindowsBatch :=
  let temporal := predictPadded m batch
  let windows := makeWindows (m.input_size + m.h) m.predict_step_size temporal
  let ws := numWindows (batchTimeLen temporal) (m.input_size + m.h) m.predict_step_size
  ⟨windows, batch.temporal_cols,
   batch.static.map (fun s => repeatInterleave ws s), batch.static_cols⟩

/-- The validation-mode slice: `temporal[:, :, cutoff:-test_size]` with
`cutoff = -input_size - val_size - test_size` when `test_size > 0`,
else `temporal[:, :, cutoff:]`. -/
def valTemporal (m : Model) (batch : Batch) : List (List (List ℚ)) :=
  if 0 < m.test_size then
    batch.temporal.map (fun chs => chs.map (fun ch =>
      pySliceToNeg m.test_size
        (pySliceFromNeg (m.input_size + m.val_size + m.test_size) ch)))
  else
    batch.temporal.map (fun chs => chs.map (fun ch =>
      pySliceFromNeg (m.input_size + m.val_size + m.test_size) ch))

/-- `_create_windows(batch, step='val')`: validation slice (never
padded: the pad guard requires `step=='predict'`), unfold with
`step_size`, reshape, replicate statics.  No filtering, no
subsampling. -/
def _create_windows_val (m : Model) (batch : Batch) : WindowsBatch :=
  let temporal := valTemporal m batch
  let windows := makeWindows (m.input_size + m.h) m.step_size temporal
  let ws := numWindows (batchTimeLen temporal) (m.input_size + m.h) m.step_size
  ⟨windows, batch.temporal_cols,
   batch.static.map (fun s => repeatInterleave ws s), batch.static_cols⟩

/-- `BaseWindows._create_windows(batch, step)`: dispatch on the step
name; an unknown step raises `ValueError`. -/
def _create_windows (m : Model) (batch : Batch)
    (rng : ℕ → ℕ → Bool → List ℕ) (step : String) : Except String WindowsBatch :=
  if step = "train" then _create_windows_train m batch rng
  else if step = "predict" then .ok (_create_windows_predict m batch)
  else if step = "val" then .ok (_create_windows_val m batch)
  else .error ("Unknown step " ++ step)

/-- Modelled from the spec: `TemporalNorm` statistics (the file
`_scalers.py` is not part of the sources).  Per series and channel the
scaler "computes per-series, per-channel statistics … using only
positions where `mask != 0`"; we model the standard method with the
masked mean as shift and the masked mean absolute deviation as scale. -/
def tnStats (col : List ℚ) (mask : List ℚ) : ℚ × ℚ :=
  let vals := ((mask.zip col).filter (fun p => decide (p.1 ≠ 0))).map (fun p => p.2)
  let shift := vals.sum / vals.length
  let scale := (vals.map (fun v => |v - shift|)).sum / vals.length
  (shift, scale)

/-- Modelled from the spec: `TemporalNorm.transform` on one series
(`x[b] : [T, C]`, `mask[b] : [T]` broadcast over channels): compute
shift/scale per channel from the masked positions and apply
`(x - shift) / scale`; the statistics are returned so the orchestrator
can invert later. -/
def tnTransformSeries (xb : List (List ℚ)) (mb : List ℚ) :
    (List (List ℚ)) × (List ℚ × List ℚ) :=
  let C := (xb.headD []).length
  let stats := (List.range C).map (fun c => tnStats (xb.map (fun row => row.getD c 0)) mb)
  let shift := stats.map (fun s => s.1)
  let scale := stats.map (fun s => s.2)
  (xb.map (fun row => (List.range row.length).map (fun c =>
      (row.getD c 0 - shift.getD c 0) / scale.getD c 0)),
   (shift, scale))

/-- The data the scaler retains: transformed tensor plus the per-series,
per-channel `x_shift` / `x_scale` statistics. -/
structure ScalerOutput where
  data : List (List (List ℚ))
  x_shift : List (List ℚ)
  x_scale : List (List ℚ)
deriving Repr, DecidableEq

/-- Modelled from the spec: `TemporalNorm.transform(x, mask)` over a
whole `[B, T, C]` tensor with a `[B, T]` mask. -/
def tnTransform (x : List (List (List ℚ))) (mask : List (List ℚ)) : ScalerOutput :=
  let per := (x.zip mask).map (fun p => tnTransformSeries p.1 p.2)
  ⟨per.map (fun q => q.1), per.map (fun q => q.2.1), per.map (fun q => q.2.2)⟩

/-- Torch advanced assignment `row[idxs] = vals` on one channel row:
position `c` takes the value scattered to it, other positions keep the
original row. -/
def scatterRow (idxs : List ℤ) (vals : List ℚ) (row : List ℚ) : List ℚ :=
  (List.range row.length).map (fun c =>
    match (idxs.zip vals).find? (fun p => p.1 == Int.ofNat c) with
    | some p => p.2
    | none => row.getD c 0)

/-- Result of `_normalization`: updated windows plus the statistics the
scaler retained (`self.scaler.x_shift` / `x_scale`). -/
structure NormResult where
  windows : WindowsBatch
  x_shift : List (List ℚ)
  x_scale : List (List ℚ)
deriving Repr, DecidableEq

/-- `BaseWindows._normalization(windows)`: drop `available_mask` from
the channel set, clone the mask column and zero its trailing `h`
positions, run the scaler on the data channels with that mask, and
write the transformed data back into the non-mask channels. -/
def _normalization (m : Model) (wb : WindowsBatch) : Except String NormResult :=
  match get_loc wb.temporal_cols "available_mask" with
  | none => .error "KeyError: available_mask"
  | some midx =>
    let data_cols := wb.temporal_cols.filter (fun c => !(c == "available_mask"))
    let idxs := get_indexer wb.temporal_cols data_cols
    let temporal_data := wb.temporal.map (fun w => w.map (fun row =>
      idxs.map (fun i => torchIndexQ row i)))
    let temporal_mask := wb.temporal.map (fun w => pyZeroTail m.h (maskColumn midx w))
    let out := tnTransform temporal_data temporal_mask
    let newTemporal := (wb.temporal.zip out.data).map (fun p =>
      (p.1.zip p.2).map (fun q => scatterRow idxs q.2 q.1))
    .ok ⟨⟨newTemporal, wb.temporal_cols, wb.static, wb.static_cols⟩,
         out.x_shift, out.x_scale⟩

/-- A prediction tensor as received by `_inv_normalization`: either
`[B, H]` (2-dimensional) or `[B, H, outputs]` (3-dimensional). -/
inductive YHat where
  | d2 : List (List ℚ) → YHat
  | d3 : List (List (List ℚ)) → YHat
deriving Repr, DecidableEq

/-- Map with the position of the element on a list. -/
def listMapIdx (f : ℕ → α → β) (xs : List α) : List β :=
  ((List.range xs.length).zip xs).map (fun p => f p.1 p.2)

/-- `BaseWindows._inv_normalization(y_hat, temporal_cols)`: unsqueeze a
2-D input, select the retained `y`-channel scale/shift
(`get_indexer(['y'])` inside the mask-dropped columns),
`repeat_interleave` them across the output columns, apply the scaler's
algebraic inverse `z * scale + shift` (modelled from the spec, the
scaler file being absent), and squeeze back. -/
def _inv_normalization (x_shift x_scale : List (List ℚ))
    (temporal_cols : List String) (y_hat : YHat) : YHat :=
  let data_cols := temporal_cols.filter (fun c => !(c == "available_mask"))
  let yj := (get_indexer data_cols ["y"]).getD 0 (-1)
  let scaleOf := fun b => torchIndexQ (x_scale.getD b []) yj
  let shiftOf := fun b => torchIndexQ (x_shift.getD b []) yj
  match y_hat with
  | .d2 y =>
      .d2 (listMapIdx (fun b row => row.map (fun z => z * scaleOf b + shiftOf b)) y)
  | .d3 y =>
      .d3 (listMapIdx (fun b rows => rows.map (fun row =>
        row.map (fun z => z * scaleOf b + shiftOf b))) y)

/-- The tuple `_parse_windows` returns (absent exogenous groups are
`None`). -/
structure ParseResult where
  insample_y : List (List ℚ)
  insample_mask : List (List ℚ)
  outsample_y : List (List ℚ)
  outsample_mask : List (List ℚ)
  hist_exog : Option (List (List (List ℚ)))
  futr_exog : Option (List (List (List ℚ)))
  stat_exog : Option (List (List ℚ))
deriving Repr, DecidableEq

/-- `BaseWindows._parse_windows(batch, windows)`: split the window
tensor into insample/outsample target and mask via `get_loc` on the
batch schema (a `KeyError` when `y` or `available_mask` is missing),
and slice the configured exogenous channel groups via `get_indexer`
(which yields the sentinel `-1`, i.e. torch's last position, for a
missing name). -/
def _parse_windows (m : Model) (batch : Batch) (wb : WindowsBatch) :
    Except String ParseResult :=
  match get_loc batch.temporal_cols "y" with
  | none => .error "KeyError: y"
  | some y_idx =>
  match get_loc batch.temporal_cols "available_mask" with
  | none => .error "KeyError: available_mask"
  | some mask_idx =>
    let insample_y := wb.temporal.map (fun w =>
      (pySliceToNeg m.h w).map (fun row => row.getD y_idx 0))
    let insample_mask := wb.temporal.map (fun w =>
      (pySliceToNeg m.h w).map (fun row => row.getD mask_idx 0))
    let outsample_y := wb.temporal.map (fun w =>
      (pySliceFromNeg m.h w).map (fun row => row.getD y_idx 0))
    let outsample_mask := wb.temporal.map (fun w =>
      (pySliceFromNeg m.h w).map (fun row => row.getD mask_idx 0))
    let hist_exog :=
      if m.hist_exog_list = [] then none
      else
        let hist_exog_idx := get_indexer wb.temporal_cols m.hist_exog_list
        some (wb.temporal.map (fun w => (pySliceToNeg m.h w).map (fun row =>
          hist_exog_idx.map (fun i => torchIndexQ row i))))
    let futr_exog :=
      if m.futr_exog_list = [] then none
      else
        let futr_exog_idx := get_indexer wb.temporal_cols m.futr_exog_list
        some (wb.temporal.map (fun w => w.map (fun row =>
          futr_exog_idx.map (fun i => torchIndexQ row i))))
    if m.stat_exog_list = [] then
      .ok ⟨insample_y, insample_mask, outsample_y, outsample_mask,
           hist_exog, futr_exog, none⟩
    else
      match wb.static_cols, wb.static with
      | some scols, some s =>
          let static_idx := get_indexer scols m.stat_exog_list
          .ok ⟨insample_y, insample_mask, outsample_y, outsample_mask,
               hist_exog, futr_exog,
               some (s.map (fun row => static_idx.map (fun i => torchIndexQ row i)))⟩
      | _, _ => .error "AttributeError: static columns are not available"

/-- The value a Lightning validation step reports: either the `np.nan`
placeholder or a real loss value. -/
inductive ValStepResult where
  | nanPlaceholder : ValStepResult
  | lossValue : ℚ → ValStepResult
deriving Repr, DecidableEq

/-- `BaseWindows.validation_step`: with `val_size == 0` it returns the
`np.nan` placeholder at once; otherwise it builds validation windows,
optionally normalizes, parses, invokes the architecture and the
(point-forecast) loss. -/
def validation_step (m : Model) (batch : Batch)
    (rng : ℕ → ℕ → Bool → List ℕ) (useScaler : Bool)
    (arch : ParseResult → List (List ℚ))
    (lossFn : List (List ℚ) → List (List ℚ) → List (List ℚ) → ℚ) :
    Except String ValStepResult :=
  if m.val_size = 0 then .ok .nanPlaceholder
  else do
    let windows ← _create_windows m batch rng "val"
    let windows ←
      if useScaler then do
        let nr ← _normalization m windows
        pure nr.windows
      else pure windows
    let parsed ← _parse_windows m batch windows
    let output := arch parsed
    .ok (.lossValue (lossFn parsed.outsample_y output parsed.outsample_mask))

/-- `BaseWindows.validation_epoch_end(outputs)`: with `val_size == 0`
it returns without logging (`none`); otherwise `torch.stack(outputs)`
(which raises on an empty list) is averaged and logged. -/
def validation_epoch_end (m : Model) (outputs : List ℚ) :
    Except String (Option ℚ) :=
  if m.val_size = 0 then .ok none
  else if outputs.length = 0 then .error "stack expects a non-empty TensorList"
  else .ok (some (outputs.sum / outputs.length))

lemma boolMask_map_filter (p : α → Bool) (xs : List α) :
    boolMask (xs.map p) xs = xs.filter p := by
  induction xs with
  | nil => rfl
  | cons x xs ih =>
    simp only [boolMask, List.map_cons, List.zip_cons_cons, List.filter_cons]
    by_cases h : p x
    · simp [h, boolMask] at ih ⊢
      exact ih
    · simp [h, boolMask] at ih ⊢
      exact ih

lemma count_true_map_eq_zero_iff (p : α → Bool) (xs : List α) :
    ((xs.map p).count true = 0) ↔ xs.filter p = [] := by
  induction xs with
  | nil => simp
  | cons x xs ih =>
    by_cases h : p x
    · simp [h, List.count_cons, List.filter_cons]
    · simp [h, List.count_cons, List.filter_cons, ih]

lemma exists_ne_zero_of_sum_pos (l : List ℚ) (h : 0 < l.sum) :
    ∃ v ∈ l, v ≠ 0 := by
  by_contra hc
  push_neg at hc
  have : l.sum = 0 := List.sum_eq_zero hc
  rw [this] at h
  exact lt_irrefl 0 h

lemma pySliceFromNeg_map (k : ℕ) (f : α → β) (xs : List α) :
    pySliceFromNeg k (xs.map f) = (pySliceFromNeg k xs).map f := by
  unfold pySliceFromNeg
  by_cases h : k = 0 <;> simp [h, List.map_drop]

lemma pySliceToNeg_map (k : ℕ) (f : α → β) (xs : List α) :
    pySliceToNeg k (xs.map f) = (pySliceToNeg k xs).map f := by
  unfold pySliceToNeg
  by_cases h : k = 0 <;> simp [h, List.map_take]

lemma getD_mem (l : List α) (i : ℕ) (d : α) (h : i < l.length) :
    l.getD i d ∈ l := by
  rw [List.getD_eq_getElem l d h]
  exact List.getElem_mem h

lemma get_loc_spec (cols : List String) (name : String) (i : ℕ)
    (h : get_loc cols name = some i) :
    i < cols.length ∧ cols.getD i "" = name := by
  induction cols generalizing i with
  | nil => simp [get_loc] at h
  | cons c rest ih =>
    by_cases hc : c = name
    · simp [get_loc, hc] at h
      subst h
      simp [hc]
    · simp [get_loc, hc] at h
      obtain ⟨j, hj, rfl⟩ := h
      obtain ⟨h1, h2⟩ := ih j hj
      constructor
      · simpa using h1
      · simpa using h2

lemma get_loc_eq_none_iff (cols : List String) (name : String) :
    get_loc cols name = none ↔ name ∉ cols := by
  induction cols with
  | nil => simp [get_loc]
  | cons c rest ih =>
    by_cases hc : c = name
    · simp [get_loc, hc]
    · have hne : ¬ name = c := fun h => hc h.symm
      cases hrest : get_loc rest name with
      | none =>
        have hnm : name ∉ rest := ih.mp hrest
        simp [get_loc, hc, hrest, hne, hnm]
      | some j =>
        have hmem : name ∈ rest := by
          by_contra hn
          rw [← ih, hrest] at hn
          exact Option.noConfusion hn
        simp [get_loc, hc, hrest, hmem]

lemma getD_zip (xs : List α) (ys : List β) (i : ℕ) (dx : α) (dy : β)
    (hx : i < xs.length) (hy : i < ys.length) :
    (xs.zip ys).getD i (dx, dy) = (xs.getD i dx, ys.getD i dy) := by
  induction xs generalizing ys i with
  | nil => simp at hx
  | cons x xs ih =>
    cases ys with
    | nil => simp at hy
    | cons y ys =>
      cases i with
      | zero => simp
      | succ i =>
        simp only [List.zip_cons_cons, List.getD_cons_succ]
        exact ih ys i (by simpa using hx) (by simpa using hy)

lemma boolMask_zip (conds : List Bool) (xs : List α) (ys : List β)
    (h : xs.length = ys.length) :
    boolMask conds (xs.zip ys) = (boolMask conds xs).zip (boolMask conds ys) := by
  induction conds generalizing xs ys with
  | nil => simp [boolMask]
  | cons c conds ih =>
    cases xs with
    | nil =>
      cases ys with
      | nil => simp [boolMask]
      | cons y ys => simp at h
    | cons x xs =>
      cases ys with
      | nil => simp at h
      | cons y ys =>
        have h' : xs.length = ys.length := by simpa using h
        by_cases hc : c
        · simp [boolMask, hc, List.filter_cons] at ih ⊢
          exact ih xs ys h'
        · simp [boolMask, hc, List.filter_cons] at ih ⊢
          exact ih xs ys h'

lemma length_boolMask_congr (conds : List Bool) (xs : List α) (ys : List β)
    (h : xs.length = ys.length) :
    (boolMask conds xs).length = (boolMask conds ys).length := by
  induction conds generalizing xs ys with
  | nil => simp [boolMask]
  | cons c conds ih =>
    cases xs with
    | nil =>
      cases ys with
      | nil => rfl
      | cons y ys => simp at h
    | cons x xs =>
      cases ys with
      | nil => simp at h
      | cons y ys =>
        have h' : xs.length = ys.length := by simpa using h
        by_cases hc : c
        · simp [boolMask, hc, List.filter_cons] at ih ⊢
          exact ih xs ys h'
        · simp [boolMask, hc, List.filter_cons] at ih ⊢
          exact ih xs ys h'

lemma length_seriesToWindows (size step T : ℕ) (chs : List (List ℚ)) :
    (seriesToWindows size step T chs).length = numWindows T size step := by
  simp [seriesToWindows]

lemma length_makeWindows (size step : ℕ) (temporal : List (List (List ℚ))) :
    (makeWindows size step temporal).length =
      temporal.length * numWindows (batchTimeLen temporal) size step := by
  unfold makeWindows
  rw [List.length_flatten]
  have h1 : (temporal.map (fun chs =>
      seriesToWindows size step (batchTimeLen temporal) chs)).map List.length
      = temporal.map (fun _ => numWindows (batchTimeLen temporal) size step) := by
    rw [List.map_map]
    apply List.map_congr_left
    intro chs _
    simp [Function.comp, length_seriesToWindows]
  rw [h1, List.map_const', List.sum_replicate, smul_eq_mul, mul_comm]

lemma length_repeatInterleave (k : ℕ) (rows : List (List ℚ)) :
    (repeatInterleave k rows).length = rows.length * k := by
  unfold repeatInterleave
  rw [List.length_flatten]
  have h1 : (rows.map (fun r => List.replicate k r)).map List.length
      = rows.map (fun _ => k) := by
    rw [List.map_map]
    apply List.map_congr_left
    intro r _
    simp [Function.comp]
  rw [h1, List.map_const', List.sum_replicate, smul_eq_mul, mul_comm]

lemma dispatch_train (m : Model) (batch : Batch) (rng : ℕ → ℕ → Bool → List ℕ) :
    _create_windows m batch rng "train" = _create_windows_train m batch rng := by
  simp [_create_windows]

/-- C6: in train mode, if zero windows survive the validity filter,
`_create_windows` raises the fatal `"No windows available for
training"` error; conversely, a successful return implies the
surviving pool was non-empty — it never silently proceeds on an empty
pool. -/
theorem c6_empty_pool_is_fatal (m : Model) (batch : Batch)
    (rng : ℕ → ℕ → Bool → List ℕ) (aidx : ℕ)
    (haidx : get_loc batch.temporal_cols "available_mask" = some aidx) :
    (boolMask (trainConds m batch aidx) (trainCandidates m batch) = [] →
      _create_windows m batch rng "train" =
        .error "No windows available for training") ∧
    (∀ wb, _create_windows m batch rng "train" = .ok wb →
      boolMask (trainConds m batch aidx) (trainCandidates m batch) ≠ []) := by
  have hmask : boolMask (trainConds m batch aidx) (trainCandidates m batch) =
      (trainCandidates m batch).filter (finalCondition m.h aidx) := by
    unfold trainConds
    exact boolMask_map_filter _ _
  constructor
  · intro hpool
    rw [hmask] at hpool
    have hcount : (trainConds m batch aidx).count true = 0 := by
      unfold trainConds
      exact (count_true_map_eq_zero_iff _ _).mpr hpool
    rw [dispatch_train]
    simp only [_create_windows_train, haidx]
    rw [if_pos hcount]
  · intro wb hok hpool
    rw [hmask] at hpool
    have hcount : (trainConds m batch aidx).count true = 0 := by
      unfold trainConds
      exact (count_true_map_eq_zero_iff _ _).mpr hpool
    rw [dispatch_train] at hok
    simp only [_create_windows_train, haidx] at hok
    rw [if_pos hcount] at hok
    exact Except.noConfusion hok

/-- Witness for C6 at a concrete batch whose only series is fully
masked out, so no window survives the filter. -/
theorem c6_empty_pool_is_fatal_witness :
    _create_windows ⟨1, 2, some 2, 1, [], [], [], 0, 0, 1⟩
      ⟨[[[1, 2, 3, 4], [0, 0, 0, 0]]], ["y", "available_mask"], none, none⟩
      (fun n s _ => (List.range s).map (fun i => if n = 0 then 0 else i % n))
      "train" = .error "No windows available for training" :=
  (c6_empty_pool_is_fatal _ _ _ 1 (by decide)).1 (by
    norm_num [boolMask, trainConds, trainCandidates, trainTemporal, padBatch,
      makeWindows, batchTimeLen, seriesToWindows, numWindows, finalCondition,
      maskColumn, pySliceFromNeg, pySliceToNeg, windowsPerSerie, List.range_succ])

/-- Elimination principle for a successful training-mode window
creation: the filter pool was non-empty, and the returned `temporal`
is either the whole pool (no cap) or the `np.random.choice` selection
from it (cap configured, with the replace flag the code computes). -/
lemma train_ok_temporal (m : Model) (batch : Batch)
    (rng : ℕ → ℕ → Bool → List ℕ) (wb : WindowsBatch) (aidx : ℕ)
    (haidx : get_loc batch.temporal_cols "available_mask" = some aidx)
    (hok : _create_windows_train m batch rng = .ok wb) :
    (trainConds m batch aidx).count true ≠ 0 ∧
    ((m.windows_batch_size = none ∧
       wb.temporal = boolMask (trainConds m batch aidx) (trainCandidates m batch)) ∨
     (∃ c, m.windows_batch_size = some c ∧
       wb.temporal =
         (rng (boolMask (trainConds m batch aidx) (trainCandidates m batch)).length c
           (decide ((boolMask (trainConds m batch aidx) (trainCandidates m batch)).length < c))).map
           (fun i => (boolMask (trainConds m batch aidx) (trainCandidates m batch)).getD i []))) := by
  unfold _create_windows_train at hok
  rw [haidx] at hok
  simp only at hok
  by_cases hcount : (trainConds m batch aidx).count true = 0
  · rw [if_pos hcount] at hok
    exact absurd hok (by simp)
  · rw [if_neg hcount] at hok
    refine ⟨hcount, ?_⟩
    cases hcap : m.windows_batch_size with
    | none =>
      rw [hcap] at hok
      simp only at hok
      left
      refine ⟨rfl, ?_⟩
      cases hok
      rfl
    | some c =>
      rw [hcap] at hok
      simp only at hok
      right
      refine ⟨c, rfl, ?_⟩
      cases hok
      rfl

/-- C2: every window returned by training-mode window creation has at
least one non-zero `available_mask` entry in its trailing `h` horizon
rows and at least one in its leading encoder rows (the window slices
`[-h:]` and `[:-h]`); windows failing either test were filtered out. -/
theorem c2_train_filter_invariant (m : Model) (batch : Batch)
    (rng : ℕ → ℕ → Bool → List ℕ) (wb : WindowsBatch) (aidx : ℕ)
    (haidx : get_loc batch.temporal_cols "available_mask" = some aidx)
    (hrng : ∀ n s r, 0 < n → ∀ i ∈ rng n s r, i < n)
    (hok : _create_windows m batch rng "train" = .ok wb) :
    ∀ w ∈ wb.temporal,
      (∃ row ∈ pySliceFromNeg m.h w, row.getD aidx 0 ≠ 0) ∧
      (∃ row ∈ pySliceToNeg m.h w, row.getD aidx 0 ≠ 0) := by
  rw [dispatch_train] at hok
  obtain ⟨hcount, hcases⟩ := train_ok_temporal m batch rng wb aidx haidx hok
  have hpool : boolMask (trainConds m batch aidx) (trainCandidates m batch)
      = (trainCandidates m batch).filter (finalCondition m.h aidx) := by
    unfold trainConds
    exact boolMask_map_filter _ _
  have hmem : ∀ w ∈ wb.temporal, finalCondition m.h aidx w = true := by
    rcases hcases with ⟨_, htemp⟩ | ⟨c, _, htemp⟩
    · intro w hw
      rw [htemp, hpool] at hw
      exact (List.mem_filter.mp hw).2
    · intro w hw
      rw [htemp] at hw
      obtain ⟨i, hi, rfl⟩ := List.mem_map.mp hw
      have hne : (trainCandidates m batch).filter (finalCondition m.h aidx) ≠ [] := by
        intro hnil
        exact hcount ((count_true_map_eq_zero_iff _ _).mpr hnil)
      have hlen : 0 < (boolMask (trainConds m batch aidx) (trainCandidates m batch)).length := by
        rw [hpool]
        exact List.length_pos.mpr hne
      have hilt := hrng _ _ _ hlen i hi
      have := getD_mem _ i ([] : List (List ℚ)) hilt
      rw [hpool] at this ⊢
      exact (List.mem_filter.mp this).2
  intro w hw
  have hcond := hmem w hw
  unfold finalCondition at hcond
  rw [Bool.and_eq_true, decide_eq_true_eq, decide_eq_true_eq] at hcond
  obtain ⟨h1, h2⟩ := hcond
  constructor
  · obtain ⟨v, hv, hvne⟩ := exists_ne_zero_of_sum_pos _ h1
    rw [maskColumn, pySliceFromNeg_map] at hv
    obtain ⟨row, hrow, rfl⟩ := List.mem_map.mp hv
    exact ⟨row, hrow, hvne⟩
  · obtain ⟨v, hv, hvne⟩ := exists_ne_zero_of_sum_pos _ h2
    rw [maskColumn, pySliceToNeg_map] at hv
    obtain ⟨row, hrow, rfl⟩ := List.mem_map.mp hv
    exact ⟨row, hrow, hvne⟩

/-- A concrete configuration used by several witnesses: `h = 1`,
`input_size = 2`, cap `windows_batch_size = 2`, no exogenous lists,
no holdout. -/
def exModel : Model := ⟨1, 2, some 2, 1, [], [], [], 0, 0, 1⟩

/-- A concrete one-series batch: `y = [1,2,3,4]`, all observations
available, one static covariate. -/
def exBatch : Batch :=
  ⟨[[[1, 2, 3, 4], [1, 1, 1, 1]]], ["y", "available_mask"],
   some [[5]], some ["s1"]⟩

/-- A deterministic stand-in for `np.random.choice`: the first `s`
indices modulo the population size. -/
def exRng : ℕ → ℕ → Bool → List ℕ :=
  fun n s _ => (List.range s).map (fun i => if n = 0 then 0 else i % n)

/-- What `_create_windows` returns on the example: three candidate
windows, the third filtered out (its horizon hits the zero pad), the
surviving two subsampled to the cap of two. -/
def exWb : WindowsBatch :=
  ⟨[[[1, 1], [2, 1], [3, 1]], [[2, 1], [3, 1], [4, 1]]],
   ["y", "available_mask"], some [[5], [5]], some ["s1"]⟩

lemma exRng_length : ∀ n s r, (exRng n s r).length = s := by
  intro n s r
  simp [exRng]

lemma exRng_range : ∀ n s r, 0 < n → ∀ i ∈ exRng n s r, i < n := by
  intro n s r hn i hi
  simp only [exRng, List.mem_map, List.mem_range] at hi
  obtain ⟨j, _, rfl⟩ := hi
  rw [if_neg (Nat.pos_iff_ne_zero.mp hn)]
  exact Nat.mod_lt j hn

lemma exCreate_ok : _create_windows exModel exBatch exRng "train" = .ok exWb := by
  rw [dispatch_train]
  unfold _create_windows_train
  rw [show get_loc exBatch.temporal_cols "available_mask" = some 1 from by decide]
  norm_num [exModel, exBatch, exRng, exWb, boolMask, trainConds, trainCandidates,
    trainTemporal, padBatch, makeWindows, batchTimeLen, seriesToWindows, numWindows,
    finalCondition, maskColumn, pySliceFromNeg, pySliceToNeg, windowsPerSerie,
    repeatInterleave, List.range_succ, List.replicate_succ]

/-- Witness for C2: the first returned window of the concrete run has a
non-zero mask entry in its horizon row and in its encoder rows. -/
theorem c2_train_filter_invariant_witness :
    (∃ row ∈ pySliceFromNeg 1 [[(1:ℚ), 1], [2, 1], [3, 1]], row.getD 1 0 ≠ 0) ∧
    (∃ row ∈ pySliceToNeg 1 [[(1:ℚ), 1], [2, 1], [3, 1]], row.getD 1 0 ≠ 0) :=
  c2_train_filter_invariant exModel exBatch exRng exWb 1 (by decide) exRng_range
    exCreate_ok [[1, 1], [2, 1], [3, 1]] (by simp [exWb])

/-- C3: on a successful training-mode creation, if a cap
`windows_batch_size = c` is configured then exactly `c` windows are
returned, obtained by indexing the surviving pool with the
`np.random.choice` draw whose replace flag is set iff the pool is
smaller than the cap; with no cap the surviving pool is returned
unchanged. -/
theorem c3_subsampling_count (m : Model) (batch : Batch)
    (rng : ℕ → ℕ → Bool → List ℕ) (wb : WindowsBatch) (aidx : ℕ)
    (haidx : get_loc batch.temporal_cols "available_mask" = some aidx)
    (hlen : ∀ n s r, (rng n s r).length = s)
    (hok : _create_windows m batch rng "train" = .ok wb) :
    (∀ c, m.windows_batch_size = some c →
      wb.temporal.length = c ∧
      wb.temporal =
        (rng (boolMask (trainConds m batch aidx) (trainCandidates m batch)).length c
          (decide ((boolMask (trainConds m batch aidx) (trainCandidates m batch)).length < c))).map
          (fun i => (boolMask (trainConds m batch aidx) (trainCandidates m batch)).getD i [])) ∧
    (m.windows_batch_size = none →
      wb.temporal = boolMask (trainConds m batch aidx) (trainCandidates m batch)) := by
  rw [dispatch_train] at hok
  obtain ⟨hcount, hcases⟩ := train_ok_temporal m batch rng wb aidx haidx hok
  constructor
  · intro c hc
    rcases hcases with ⟨hnone, _⟩ | ⟨c', hc', htemp⟩
    · rw [hnone] at hc
      exact Option.noConfusion hc
    · rw [hc'] at hc
      injection hc with hcc
      subst hcc
      refine ⟨?_, htemp⟩
      rw [htemp, List.length_map, hlen]
  · intro hnone
    rcases hcases with ⟨_, htemp⟩ | ⟨c', hc', _⟩
    · exact htemp
    · rw [hnone] at hc'
      exact Option.noConfusion hc'

/-- Witness for C3: the concrete run returns exactly the configured cap
of 2 windows. -/
theorem c3_subsampling_count_witness : exWb.temporal.length = 2 :=
  ((c3_subsampling_count exModel exBatch exRng exWb 1 (by decide) exRng_length
    exCreate_ok).1 2 rfl).1

/-- A configuration whose historical exogenous list names a channel
(`"temp"`) absent from the schema. -/
def exMissModel : Model := ⟨1, 2, some 1024, 1, [], ["temp"], [], 0, 0, 1⟩

/-- A batch over the schema `["y", "available_mask", "x1"]` — no
channel is called `"temp"`. -/
def exMissBatch : Batch :=
  ⟨[[[1, 2, 3], [1, 1, 1], [10, 20, 30]]], ["y", "available_mask", "x1"],
   none, none⟩

/-- A single parsed window over the same schema; the `x1` channel holds
`[10, 20, 30]`. -/
def exMissWb : WindowsBatch :=
  ⟨[[[1, 1, 10], [2, 1, 20], [3, 1, 30]]], ["y", "available_mask", "x1"],
   none, none⟩

/-- C1 counterexample: with `hist_exog_list = ["temp"]` and no channel
named `"temp"` in the schema, `_parse_windows` does NOT fail — it
returns successfully, and the historical block it hands back is the
data of the `x1` channel (`get_indexer` yields the sentinel `-1`,
which torch indexing resolves to the last channel). -/
theorem c1_missing_exog_counterexample :
    (_parse_windows exMissModel exMissBatch exMissWb).map (fun r => r.hist_exog) =
      .ok (some [[[10], [20]]]) := by
  unfold _parse_windows
  rw [show get_loc exMissBatch.temporal_cols "y" = some 0 from by decide]
  rw [show get_loc exMissBatch.temporal_cols "available_mask" = some 1 from by decide]
  norm_num [exMissModel, exMissWb, get_indexer, torchIndexQ,
    pySliceToNeg, pySliceFromNeg,
    show get_loc ["y", "available_mask", "x1"] "temp" = none from by decide,
    Except.map]

/-- C1 amended: referencing a historical exogenous channel name absent
from the schema does not raise any error in `_parse_windows`;
`get_indexer` maps the missing name to the pandas sentinel `-1`, and
the returned historical block silently holds the data of the LAST
channel of the window tensor. -/
theorem c1_missing_exog_amended (m : Model) (batch : Batch) (wb : WindowsBatch)
    (name : String) (y_idx mask_idx : ℕ)
    (hhist : m.hist_exog_list = [name])
    (hfutr : m.futr_exog_list = [])
    (hstat : m.stat_exog_list = [])
    (hmiss : name ∉ wb.temporal_cols)
    (hy : get_loc batch.temporal_cols "y" = some y_idx)
    (hmask : get_loc batch.temporal_cols "available_mask" = some mask_idx) :
    ∃ r, _parse_windows m batch wb = .ok r ∧
      r.hist_exog = some (wb.temporal.map (fun w => (pySliceToNeg m.h w).map
        (fun row => [row.getD (row.length - 1) 0]))) := by
  have hidx : get_indexer wb.temporal_cols [name] = [-1] := by
    simp [get_indexer, (get_loc_eq_none_iff wb.temporal_cols name).mpr hmiss]
  unfold _parse_windows
  rw [hy, hmask]
  simp only [hhist, hfutr, hstat, hidx, if_pos rfl]
  rw [if_neg (by simp : ¬([name] = []))]
  refine ⟨_, rfl, ?_⟩
  simp only [Option.some.injEq]
  apply List.map_congr_left
  intro w _
  apply List.map_congr_left
  intro row _
  simp [torchIndexQ]

/-- Witness for the amended C1 at the concrete instance. -/
theorem c1_missing_exog_amended_witness :
    ∃ r, _parse_windows exMissModel exMissBatch exMissWb = .ok r ∧
      r.hist_exog = some (exMissWb.temporal.map (fun w => (pySliceToNeg 1 w).map
        (fun row => [row.getD (row.length - 1) 0]))) :=
  c1_missing_exog_amended exMissModel exMissBatch exMissWb "temp" 0 1
    rfl rfl rfl (by decide) (by decide) (by decide)

lemma length_predictPadded (m : Model) (b : Batch) :
    (predictPadded m b).length = b.temporal.length := by
  unfold predictPadded padBatch predictTemporal
  by_cases hc : m.test_size = 0 ∧ m.futr_exog_list = [] <;> simp [hc]

/-- C7: predict-mode window creation (a) depends only on the trailing
`input_size + test_size` timesteps of each series (two batches that
agree there, and on schema/statics, produce identical results), (b)
pads the trailing edge by `h` iff `test_size = 0` and the
future-exogenous list is empty, (c) never fails, and (d) applies no
filtering or subsampling: every series contributes exactly one window
per unfold slide position. -/
theorem c7_predict_trailing_pad_nofilter (m : Model) (b1 b2 : Batch)
    (hstep : 0 < m.predict_step_size)
    (htrail : b1.temporal.map (fun chs => chs.map (fun ch =>
        pySliceFromNeg (m.input_size + m.test_size) ch)) =
      b2.temporal.map (fun chs => chs.map (fun ch =>
        pySliceFromNeg (m.input_size + m.test_size) ch)))
    (hcols : b1.temporal_cols = b2.temporal_cols)
    (hstatic : b1.static = b2.static)
    (hscols : b1.static_cols = b2.static_cols) :
    _create_windows_predict m b2 = _create_windows_predict m b1 ∧
    (∀ rng, _create_windows m b1 rng "predict" = .ok (_create_windows_predict m b1)) ∧
    (_create_windows_predict m b1).temporal =
      makeWindows (m.input_size + m.h) m.predict_step_size
        (if m.test_size = 0 ∧ m.futr_exog_list = []
         then padBatch m.h (predictTemporal m b1)
         else predictTemporal m b1) ∧
    (_create_windows_predict m b1).temporal.length =
      b1.temporal.length * numWindows (batchTimeLen (predictPadded m b1))
        (m.input_size + m.h) m.predict_step_size := by
  have htemp : predictTemporal m b2 = predictTemporal m b1 := by
    unfold predictTemporal
    exact htrail.symm
  refine ⟨?_, ?_, ?_, ?_⟩
  · unfold _create_windows_predict predictPadded
    rw [htemp, hcols, hstatic, hscols]
  · intro rng
    simp [_create_windows]
  · simp [_create_windows_predict, predictPadded]
  · show (makeWindows (m.input_size + m.h) m.predict_step_size (predictPadded m b1)).length = _
    rw [length_makeWindows, length_predictPadded]

/-- Witness for C7: two single-series batches that differ in their
early history but share the trailing two observations produce the same
predict windows; with `test_size = 0` and no future exogenous list the
window extends over the `h`-padded tail. -/
theorem c7_predict_trailing_pad_nofilter_witness :
    _create_windows_predict ⟨2, 2, none, 1, [], [], [], 0, 0, 1⟩
        ⟨[[[7, 8, 3, 4], [1, 1, 1, 1]]], ["y", "available_mask"], none, none⟩ =
      _create_windows_predict ⟨2, 2, none, 1, [], [], [], 0, 0, 1⟩
        ⟨[[[1, 2, 3, 4], [1, 1, 1, 1]]], ["y", "available_mask"], none, none⟩ ∧
    (∀ rng, _create_windows ⟨2, 2, none, 1, [], [], [], 0, 0, 1⟩
        ⟨[[[1, 2, 3, 4], [1, 1, 1, 1]]], ["y", "available_mask"], none, none⟩ rng "predict" =
      .ok (_create_windows_predict ⟨2, 2, none, 1, [], [], [], 0, 0, 1⟩
        ⟨[[[1, 2, 3, 4], [1, 1, 1, 1]]], ["y", "available_mask"], none, none⟩)) ∧
    (_create_windows_predict ⟨2, 2, none, 1, [], [], [], 0, 0, 1⟩
        ⟨[[[1, 2, 3, 4], [1, 1, 1, 1]]], ["y", "available_mask"], none, none⟩).temporal =
      makeWindows 4 1
        (if (0 : ℕ) = 0 ∧ ([] : List String) = []
         then padBatch 2 (predictTemporal ⟨2, 2, none, 1, [], [], [], 0, 0, 1⟩
           ⟨[[[1, 2, 3, 4], [1, 1, 1, 1]]], ["y", "available_mask"], none, none⟩)
         else predictTemporal ⟨2, 2, none, 1, [], [], [], 0, 0, 1⟩
           ⟨[[[1, 2, 3, 4], [1, 1, 1, 1]]], ["y", "available_mask"], none, none⟩) ∧
    (_create_windows_predict ⟨2, 2, none, 1, [], [], [], 0, 0, 1⟩
        ⟨[[[1, 2, 3, 4], [1, 1, 1, 1]]], ["y", "available_mask"], none, none⟩).temporal.length =
      1 * numWindows (batchTimeLen (predictPadded ⟨2, 2, none, 1, [], [], [], 0, 0, 1⟩
        ⟨[[[1, 2, 3, 4], [1, 1, 1, 1]]], ["y", "available_mask"], none, none⟩)) 4 1 :=
  c7_predict_trailing_pad_nofilter
    ⟨2, 2, none, 1, [], [], [], 0, 0, 1⟩
    ⟨[[[1, 2, 3, 4], [1, 1, 1, 1]]], ["y", "available_mask"], none, none⟩
    ⟨[[[7, 8, 3, 4], [1, 1, 1, 1]]], ["y", "available_mask"], none, none⟩
    (by decide) (by rfl) rfl rfl rfl

/-- C8: with `val_size = 0` the validation step returns the `np.nan`
placeholder immediately — for every batch, architecture, loss and
scaler setting, so no windows are built and the architecture is never
invoked — and the epoch-end hook returns without logging any epoch
metric (in particular it never reaches the `torch.stack` call that
would raise on an empty output list). -/
theorem c8_val_size_zero_noop (m : Model) (batch : Batch)
    (rng : ℕ → ℕ → Bool → List ℕ) (useScaler : Bool)
    (arch : ParseResult → List (List ℚ))
    (lossFn : List (List ℚ) → List (List ℚ) → List (List ℚ) → ℚ)
    (outputs : List ℚ)
    (hval : m.val_size = 0) :
    validation_step m batch rng useScaler arch lossFn = .ok .nanPlaceholder ∧
    validation_epoch_end m outputs = .ok none := by
  constructor
  · unfold validation_step
    rw [if_pos hval]
  · unfold validation_epoch_end
    rw [if_pos hval]

/-- Witness for C8: concrete no-validation configuration, an empty
epoch-output list included. -/
theorem c8_val_size_zero_noop_witness :
    validation_step exModel exBatch exRng true (fun _ => []) (fun _ _ _ => 0) =
      .ok .nanPlaceholder ∧
    validation_epoch_end exModel [] = .ok none :=
  c8_val_size_zero_noop exModel exBatch exRng true (fun _ => []) (fun _ _ _ => 0)
    [] (by decide)

lemma listMapIdx_length (f : ℕ → α → β) (xs : List α) :
    (listMapIdx f xs).length = xs.length := by
  simp [listMapIdx]

lemma listMapIdx_getD (f : ℕ → α → β) (xs : List α) (i : ℕ) (d : β) (dx : α)
    (hi : i < xs.length) :
    (listMapIdx f xs).getD i d = f i (xs.getD i dx) := by
  unfold listMapIdx
  have hlen : i < (((List.range xs.length).zip xs).map (fun p => f p.1 p.2)).length := by
    simpa [List.length_zip] using hi
  rw [List.getD_eq_getElem _ _ hlen, List.getElem_map, List.getElem_zip,
    List.getElem_range, List.getD_eq_getElem _ _ hi]

/-- C10: `_inv_normalization` preserves the shape of its input — a 2-D
`[windows, horizon]` prediction yields a 2-D output of the same sizes,
and a 3-D `[windows, horizon, outputs]` prediction yields a 3-D output
with the same sizes including the last dimension (the hypotheses state
torch's broadcast precondition that the batch dimension matches the
retained statistics). -/
theorem c10_inv_normalization_shape (x_shift x_scale : List (List ℚ))
    (cols : List String) :
    (∀ y : List (List ℚ), y.length = x_scale.length →
      ∃ z, _inv_normalization x_shift x_scale cols (.d2 y) = .d2 z ∧
        z.length = y.length ∧
        ∀ i, (z.getD i []).length = (y.getD i []).length) ∧
    (∀ y : List (List (List ℚ)), y.length = x_scale.length →
      ∃ z, _inv_normalization x_shift x_scale cols (.d3 y) = .d3 z ∧
        z.length = y.length ∧
        ∀ i, (z.getD i []).length = (y.getD i []).length ∧
          ∀ j, ((z.getD i []).getD j []).length =
               ((y.getD i []).getD j []).length) := by
  constructor
  · intro y _
    refine ⟨_, rfl, listMapIdx_length _ _, ?_⟩
    intro i
    by_cases hi : i < y.length
    · rw [listMapIdx_getD _ _ _ _ [] hi, List.length_map]
    · rw [List.getD_eq_default, List.getD_eq_default]
      · omega
      · rw [listMapIdx_length]
        omega
  · intro y _
    refine ⟨_, rfl, listMapIdx_length _ _, ?_⟩
    intro i
    by_cases hi : i < y.length
    · rw [listMapIdx_getD _ _ _ _ [] hi, List.length_map]
      refine ⟨rfl, ?_⟩
      intro j
      by_cases hj : j < (y.getD i []).length
      · have hj' : j < ((y.getD i []).map (fun row =>
            row.map (fun z => z * torchIndexQ (x_scale.getD i [])
              ((get_indexer (cols.filter (fun c => !(c == "available_mask"))) ["y"]).getD 0 (-1)) +
                torchIndexQ (x_shift.getD i [])
              ((get_indexer (cols.filter (fun c => !(c == "available_mask"))) ["y"]).getD 0 (-1))))).length := by
          simpa using hj
        rw [List.getD_eq_getElem _ _ hj', List.getElem_map,
          List.getD_eq_getElem _ _ hj, List.length_map]
      · rw [List.getD_eq_default, List.getD_eq_default]
        · omega
        · simpa using hj
    · rw [List.getD_eq_default, List.getD_eq_default]
      · simp
      · omega
      · rw [listMapIdx_length]
        omega

/-- Witness for C10 at concrete 2-D and 3-D predictions. -/
theorem c10_inv_normalization_shape_witness :
    (∃ z, _inv_normalization [[5]] [[2]] ["y", "available_mask"]
        (.d2 [[1, 2]]) = .d2 z ∧
      z.length = [[(1 : ℚ), 2]].length ∧
      ∀ i, (z.getD i []).length = ([[(1 : ℚ), 2]].getD i []).length) ∧
    (∃ z, _inv_normalization [[5]] [[2]] ["y", "available_mask"]
        (.d3 [[[1], [2]]]) = .d3 z ∧
      z.length = [[[(1 : ℚ)], [2]]].length ∧
      ∀ i, (z.getD i []).length = ([[[(1 : ℚ)], [2]]].getD i []).length ∧
        ∀ j, ((z.getD i []).getD j []).length =
             (([[[(1 : ℚ)], [2]]].getD i []).getD j []).length) :=
  ⟨(c10_inv_normalization_shape [[5]] [[2]] ["y", "available_mask"]).1 [[1, 2]] rfl,
   (c10_inv_normalization_shape [[5]] [[2]] ["y", "available_mask"]).2 [[[1], [2]]] rfl⟩

lemma getD_map (f : α → β) (xs : List α) (i : ℕ) (d : β) (dx : α)
    (hi : i < xs.length) :
    (xs.map f).getD i d = f (xs.getD i dx) := by
  rw [List.getD_eq_getElem _ _ (by simpa using hi), List.getElem_map,
    List.getD_eq_getElem _ _ hi]

lemma getD_map_zip (f : α → β → γ) (xs : List α) (ys : List β) (b : ℕ)
    (d : γ) (da : α) (db : β) (hb : b < xs.length) (hb' : b < ys.length) :
    ((xs.zip ys).map (fun p => f p.1 p.2)).getD b d =
      f (xs.getD b da) (ys.getD b db) := by
  have hz : b < (xs.zip ys).length := by
    rw [List.length_zip]
    omega
  rw [List.getD_eq_getElem _ _ (by simpa using hz), List.getElem_map,
    List.getElem_zip, List.getD_eq_getElem _ _ hb, List.getD_eq_getElem _ _ hb']

lemma scatterRow_length (idxs : List ℤ) (vals row : List ℚ) :
    (scatterRow idxs vals row).length = row.length := by
  simp [scatterRow]

lemma scatterRow_getD_not_mem (idxs : List ℤ) (vals row : List ℚ) (midx : ℕ)
    (h : Int.ofNat midx ∉ idxs) :
    (scatterRow idxs vals row).getD midx 0 = row.getD midx 0 := by
  by_cases hm : midx < row.length
  · have hfind : (idxs.zip vals).find? (fun p => p.1 == Int.ofNat midx) = none := by
      rw [List.find?_eq_none]
      intro q hq
      have hq1 := (List.of_mem_zip hq).1
      simp only [beq_iff_eq]
      intro heq
      exact h (heq ▸ hq1)
    unfold scatterRow
    have hm' : midx < ((List.range row.length).map (fun c =>
        match (idxs.zip vals).find? (fun p => p.1 == Int.ofNat c) with
        | some p => p.2
        | none => row.getD c 0)).length := by
      simpa using hm
    rw [List.getD_eq_getElem _ _ hm', List.getElem_map, List.getElem_range, hfind]
  · rw [List.getD_eq_default _ _ (by rw [scatterRow_length]; omega),
      List.getD_eq_default _ _ (by omega)]

lemma mask_idx_not_in_data_idxs (cols : List String) (midx : ℕ)
    (hmidx : get_loc cols "available_mask" = some midx) :
    Int.ofNat midx ∉
      get_indexer cols (cols.filter (fun c => !(c == "available_mask"))) := by
  intro hmem
  unfold get_indexer at hmem
  obtain ⟨n, hn, heq⟩ := List.mem_map.mp hmem
  have hnmask : n ≠ "available_mask" := by
    have := (List.mem_filter.mp hn).2
    simpa using this
  cases hloc : get_loc cols n with
  | none =>
    rw [hloc] at heq
    simp only at heq
    have hnn : (0 : ℤ) ≤ Int.ofNat midx := Int.ofNat_nonneg midx
    rw [← heq] at hnn
    norm_num at hnn
  | some i =>
    rw [hloc] at heq
    simp only at heq
    have hie : i = midx := by
      rw [Int.ofNat_eq_natCast] at heq
      exact_mod_cast heq
    subst hie
    obtain ⟨_, hival⟩ := get_loc_spec cols n i hloc
    obtain ⟨_, hmval⟩ := get_loc_spec cols "available_mask" i hmidx
    exact hnmask (hival.symm.trans hmval)

lemma tnTransformSeries_data_length (xb : List (List ℚ)) (mb : List ℚ) :
    (tnTransformSeries xb mb).1.length = xb.length := by
  simp [tnTransformSeries]

/-- C9: `_normalization` modifies only the data channels — the
`available_mask` channel of every window holds identical values before
and after normalization, and the window-batch shape and schema are
unchanged. -/
theorem c9_normalization_preserves_mask (m : Model) (wb : WindowsBatch)
    (nr : NormResult) (midx : ℕ)
    (hmidx : get_loc wb.temporal_cols "available_mask" = some midx)
    (hok : _normalization m wb = .ok nr) :
    nr.windows.temporal.length = wb.temporal.length ∧
    nr.windows.temporal_cols = wb.temporal_cols ∧
    ∀ b t, ((nr.windows.temporal.getD b []).getD t []).getD midx 0 =
           ((wb.temporal.getD b []).getD t []).getD midx 0 := by
  unfold _normalization at hok
  rw [hmidx] at hok
  simp only at hok
  cases hok
  simp only
  set idxs := get_indexer wb.temporal_cols
    (wb.temporal_cols.filter (fun c => !(c == "available_mask"))) with hidxs
  set X := wb.temporal.map (fun w => w.map (fun row =>
    idxs.map (fun i => torchIndexQ row i))) with hX
  set M := wb.temporal.map (fun w => pyZeroTail m.h (maskColumn midx w)) with hM
  have hXlen : X.length = wb.temporal.length := by rw [hX, List.length_map]
  have hMlen : M.length = wb.temporal.length := by rw [hM, List.length_map]
  have hZ : (tnTransform X M).data =
      (X.zip M).map (fun p => (tnTransformSeries p.1 p.2).1) := by
    simp [tnTransform]
  have hZlen : (tnTransform X M).data.length = wb.temporal.length := by
    rw [hZ, List.length_map, List.length_zip, hXlen, hMlen, min_self]
  refine ⟨?_, by trivial, ?_⟩
  · rw [List.length_map, List.length_zip, hZlen, min_self]
  · intro b t
    by_cases hb : b < wb.temporal.length
    · have hbZ : b < (tnTransform X M).data.length := by omega
      rw [getD_map_zip (fun a z => (a.zip z).map (fun q => scatterRow idxs q.2 q.1))
        wb.temporal (tnTransform X M).data b [] [] [] hb hbZ]
      have hZb : (tnTransform X M).data.getD b [] =
          (tnTransformSeries (X.getD b []) (M.getD b [])).1 := by
        rw [hZ]
        exact getD_map_zip (fun a mm => (tnTransformSeries a mm).1) X M b [] [] []
          (by omega) (by omega)
      have hXb : X.getD b [] = (wb.temporal.getD b []).map (fun row =>
          idxs.map (fun i => torchIndexQ row i)) := by
        rw [hX]
        exact getD_map _ wb.temporal b [] [] hb
      have hZblen : ((tnTransform X M).data.getD b []).length =
          (wb.temporal.getD b []).length := by
        rw [hZb, tnTransformSeries_data_length, hXb, List.length_map]
      by_cases ht : t < (wb.temporal.getD b []).length
      · have htZ : t < ((tnTransform X M).data.getD b []).length := by omega
        rw [getD_map_zip (fun a z => scatterRow idxs z a)
          (wb.temporal.getD b []) ((tnTransform X M).data.getD b []) t [] [] [] ht htZ]
        exact scatterRow_getD_not_mem idxs _ _ midx
          (mask_idx_not_in_data_idxs wb.temporal_cols midx hmidx)
      · have hL : (((wb.temporal.getD b []).zip
            ((tnTransform X M).data.getD b [])).map
            (fun q => scatterRow idxs q.2 q.1)).getD t ([] : List ℚ) = [] :=
          List.getD_eq_default _ _ (by rw [List.length_map, List.length_zip]; omega)
        have hR : (wb.temporal.getD b []).getD t ([] : List ℚ) = [] :=
          List.getD_eq_default _ _ (by omega)
        rw [hL, hR]
    · have hNlen : ((wb.temporal.zip (tnTransform X M).data).map
          (fun p => (p.1.zip p.2).map (fun q => scatterRow idxs q.2 q.1))).length =
          wb.temporal.length := by
        rw [List.length_map, List.length_zip, hZlen, min_self]
      have hL : ((wb.temporal.zip (tnTransform X M).data).map
          (fun p => (p.1.zip p.2).map (fun q => scatterRow idxs q.2 q.1))).getD b
            ([] : List (List ℚ)) = [] :=
        List.getD_eq_default _ _ (by omega)
      have hR : wb.temporal.getD b ([] : List (List ℚ)) = [] :=
        List.getD_eq_default _ _ (by omega)
      rw [hL, hR]

/-- Witness for C9 at a concrete normalized window batch. -/
theorem c9_normalization_preserves_mask_witness :
    ∃ nr, _normalization exModel
        ⟨[[[1, 1], [2, 1], [3, 1]]], ["y", "available_mask"], none, none⟩ = .ok nr ∧
      nr.windows.temporal.length = 1 ∧
      ((nr.windows.temporal.getD 0 []).getD 1 []).getD 1 0 = 1 := by
  cases hok : _normalization exModel
      ⟨[[[1, 1], [2, 1], [3, 1]]], ["y", "available_mask"], none, none⟩ with
  | error e =>
    exact absurd hok (by
      unfold _normalization
      rw [show get_loc ["y", "available_mask"] "available_mask" = some 1 from by decide]
      simp)
  | ok nr =>
    obtain ⟨h1, _, h3⟩ := c9_normalization_preserves_mask exModel
      ⟨[[[1, 1], [2, 1], [3, 1]]], ["y", "available_mask"], none, none⟩ nr 1
      (by decide) hok
    exact ⟨nr, rfl, h1, by rw [h3 0 1]; norm_num⟩

lemma length_trainTemporal (m : Model) (batch : Batch) :
    (trainTemporal m batch).length = batch.temporal.length := by
  unfold trainTemporal padBatch
  by_cases hc : 0 < m.val_size + m.test_size <;> simp [hc]

lemma length_trainCandidates (m : Model) (batch : Batch) :
    (trainCandidates m batch).length =
      batch.temporal.length * windowsPerSerie m batch := by
  unfold trainCandidates windowsPerSerie
  rw [length_makeWindows, length_trainTemporal]

/-- Elimination principle for a successful training-mode creation when
static covariates are present: both the windows and the statics are
obtained by the same filter followed by the same subsampling
indices. -/
lemma train_ok_full (m : Model) (batch : Batch)
    (rng : ℕ → ℕ → Bool → List ℕ) (wb : WindowsBatch) (aidx : ℕ)
    (s0 : List (List ℚ))
    (haidx : get_loc batch.temporal_cols "available_mask" = some aidx)
    (hs : batch.static = some s0)
    (hok : _create_windows_train m batch rng = .ok wb) :
    (trainConds m batch aidx).count true ≠ 0 ∧
    ((m.windows_batch_size = none ∧
       wb.temporal = boolMask (trainConds m batch aidx) (trainCandidates m batch) ∧
       wb.static = some (boolMask (trainConds m batch aidx)
         (repeatInterleave (windowsPerSerie m batch) s0))) ∨
     (∃ c, m.windows_batch_size = some c ∧
       wb.temporal =
         (rng (boolMask (trainConds m batch aidx) (trainCandidates m batch)).length c
           (decide ((boolMask (trainConds m batch aidx) (trainCandidates m batch)).length < c))).map
           (fun i => (boolMask (trainConds m batch aidx) (trainCandidates m batch)).getD i []) ∧
       wb.static = some
         ((rng (boolMask (trainConds m batch aidx) (trainCandidates m batch)).length c
           (decide ((boolMask (trainConds m batch aidx) (trainCandidates m batch)).length < c))).map
           (fun i => (boolMask (trainConds m batch aidx)
             (repeatInterleave (windowsPerSerie m batch) s0)).getD i [])))) := by
  unfold _create_windows_train at hok
  rw [haidx, hs] at hok
  simp only at hok
  by_cases hcount : (trainConds m batch aidx).count true = 0
  · rw [if_pos hcount] at hok
    exact absurd hok (by simp)
  · rw [if_neg hcount] at hok
    refine ⟨hcount, ?_⟩
    cases hcap : m.windows_batch_size with
    | none =>
      rw [hcap] at hok
      simp only at hok
      left
      refine ⟨rfl, ?_, ?_⟩ <;> cases hok <;> rfl
    | some c =>
      rw [hcap] at hok
      simp only at hok
      right
      refine ⟨c, rfl, ?_, ?_⟩ <;> cases hok <;> rfl

/-- C5: in train mode the static rows stay index-aligned with their
windows: the statics are replicated once per candidate window of their
series, then the same boolean filter and the same subsampling index
draw are applied to windows and statics, so zipping the returned
windows with the returned statics equals running the very same
selection over window/static pairs. -/
theorem c5_static_alignment (m : Model) (batch : Batch)
    (rng : ℕ → ℕ → Bool → List ℕ) (wb : WindowsBatch) (aidx : ℕ)
    (s0 : List (List ℚ))
    (haidx : get_loc batch.temporal_cols "available_mask" = some aidx)
    (hrng_range : ∀ n c r, 0 < n → ∀ i ∈ rng n c r, i < n)
    (hs : batch.static = some s0)
    (hB : s0.length = batch.temporal.length)
    (hok : _create_windows m batch rng "train" = .ok wb) :
    ∃ s', wb.static = some s' ∧
      s'.length = wb.temporal.length ∧
      (m.windows_batch_size = none →
        wb.temporal.zip s' =
          boolMask (trainConds m batch aidx)
            ((trainCandidates m batch).zip
              (repeatInterleave (windowsPerSerie m batch) s0))) ∧
      (∀ c, m.windows_batch_size = some c →
        wb.temporal.zip s' =
          (rng (boolMask (trainConds m batch aidx)
              ((trainCandidates m batch).zip
                (repeatInterleave (windowsPerSerie m batch) s0))).length c
            (decide ((boolMask (trainConds m batch aidx)
              ((trainCandidates m batch).zip
                (repeatInterleave (windowsPerSerie m batch) s0))).length < c))).map
            (fun i => (boolMask (trainConds m batch aidx)
              ((trainCandidates m batch).zip
                (repeatInterleave (windowsPerSerie m batch) s0))).getD i ([], []))) := by
  rw [dispatch_train] at hok
  obtain ⟨hcount, hcases⟩ := train_ok_full m batch rng wb aidx s0 haidx hs hok
  have hlens : (trainCandidates m batch).length =
      (repeatInterleave (windowsPerSerie m batch) s0).length := by
    rw [length_trainCandidates, length_repeatInterleave, hB]
  have hzip : boolMask (trainConds m batch aidx)
      ((trainCandidates m batch).zip (repeatInterleave (windowsPerSerie m batch) s0)) =
      (boolMask (trainConds m batch aidx) (trainCandidates m batch)).zip
        (boolMask (trainConds m batch aidx)
          (repeatInterleave (windowsPerSerie m batch) s0)) :=
    boolMask_zip _ _ _ hlens
  have hWS : (boolMask (trainConds m batch aidx) (trainCandidates m batch)).length =
      (boolMask (trainConds m batch aidx)
        (repeatInterleave (windowsPerSerie m batch) s0)).length :=
    length_boolMask_congr _ _ _ hlens
  have hplen : (boolMask (trainConds m batch aidx)
      ((trainCandidates m batch).zip (repeatInterleave (windowsPerSerie m batch) s0))).length =
      (boolMask (trainConds m batch aidx) (trainCandidates m batch)).length := by
    rw [hzip, List.length_zip, hWS, min_self]
  rcases hcases with ⟨hnone, htemp, hstat⟩ | ⟨c, hcap, htemp, hstat⟩
  · refine ⟨_, hstat, ?_, ?_, ?_⟩
    · rw [htemp]
      exact hWS.symm
    · intro _
      rw [htemp, hzip]
    · intro c hc
      rw [hnone] at hc
      exact Option.noConfusion hc
  · refine ⟨_, hstat, ?_, ?_, ?_⟩
    · rw [htemp, List.length_map, List.length_map]
    · intro hnone
      rw [hnone] at hcap
      exact Option.noConfusion hcap
    · intro c' hc'
      rw [hcap] at hc'
      injection hc' with hcc
      subst hcc
      rw [htemp, hplen, List.zip_map']
      apply List.map_congr_left
      intro i hi
      have hWpos : 0 < (boolMask (trainConds m batch aidx) (trainCandidates m batch)).length := by
        have hne : (trainCandidates m batch).filter (finalCondition m.h aidx) ≠ [] := by
          intro hnil
          exact hcount ((count_true_map_eq_zero_iff _ _).mpr hnil)
        have : boolMask (trainConds m batch aidx) (trainCandidates m batch) ≠ [] := by
          unfold trainConds
          rw [boolMask_map_filter]
          exact hne
        exact List.length_pos.mpr this
      have hilt := hrng_range _ _ _ hWpos i hi
      rw [hzip]
      exact (getD_zip _ _ i [] [] hilt (by omega)).symm

/-- Witness for C5 on the concrete run: the returned statics `[[5], [5]]`
are aligned pairwise with the two returned windows. -/
theorem c5_static_alignment_witness :
    ∃ s', exWb.static = some s' ∧
      s'.length = exWb.temporal.length ∧
      (exModel.windows_batch_size = none →
        exWb.temporal.zip s' =
          boolMask (trainConds exModel exBatch 1)
            ((trainCandidates exModel exBatch).zip
              (repeatInterleave (windowsPerSerie exModel exBatch) [[5]]))) ∧
      (∀ c, exModel.windows_batch_size = some c →
        exWb.temporal.zip s' =
          (exRng (boolMask (trainConds exModel exBatch 1)
              ((trainCandidates exModel exBatch).zip
                (repeatInterleave (windowsPerSerie exModel exBatch) [[5]]))).length c
            (decide ((boolMask (trainConds exModel exBatch 1)
              ((trainCandidates exModel exBatch).zip
                (repeatInterleave (windowsPerSerie exModel exBatch) [[5]]))).length < c))).map
            (fun i => (boolMask (trainConds exModel exBatch 1)
              ((trainCandidates exModel exBatch).zip
                (repeatInterleave (windowsPerSerie exModel exBatch) [[5]]))).getD i ([], []))) :=
  c5_static_alignment exModel exBatch exRng exWb 1 [[5]]
    (by decide) exRng_range rfl rfl exCreate_ok

lemma pyZeroTail_congr (h : ℕ) (xs ys : List ℚ)
    (hlen : xs.length = ys.length)
    (hag : ∀ t, 0 < h → t < xs.length - h → xs.getD t 0 = ys.getD t 0) :
    pyZeroTail h xs = pyZeroTail h ys := by
  unfold pyZeroTail pySliceToNeg
  by_cases h0 : h = 0
  · simp [h0, hlen]
  · rw [if_neg h0, if_neg h0]
    have htake : xs.take (xs.length - h) = ys.take (ys.length - h) := by
      apply List.ext_getElem
      · simp [hlen]
      · intro t h1 h2
        have ht : t < xs.length - h := by
          simp only [List.length_take] at h1
          omega
        have hx : t < xs.length := by omega
        have hy : t < ys.length := by omega
        have := hag t (Nat.pos_of_ne_zero h0) ht
        rw [List.getD_eq_getElem _ _ hx, List.getD_eq_getElem _ _ hy] at this
        rw [List.getElem_take, List.getElem_take]
        exact this
    rw [htake, hlen]

lemma pyZeroTail_getD_ne_zero (h : ℕ) (xs : List ℚ) (t : ℕ)
    (hne : (pyZeroTail h xs).getD t 0 ≠ 0) :
    0 < h ∧ t < xs.length - h := by
  unfold pyZeroTail pySliceToNeg at hne
  by_cases h0 : h = 0
  · exfalso
    apply hne
    subst h0
    have hif : (if (0 : ℕ) = 0 then ([] : List ℚ) else xs.take (xs.length - 0)) = [] :=
      if_pos rfl
    rw [hif, List.nil_append, List.length_nil, Nat.sub_zero]
    by_cases ht : t < xs.length
    · rw [List.getD_eq_getElem _ _ (by simpa using ht), List.getElem_replicate]
    · rw [List.getD_eq_default _ _ (by simpa using ht)]
  · rw [if_neg h0] at hne
    refine ⟨Nat.pos_of_ne_zero h0, ?_⟩
    by_contra hge
    apply hne
    have hlen : (xs.take (xs.length - h)).length = xs.length - h := by
      simp
    by_cases hrep : t < xs.length
    · rw [List.getD_append_right _ _ _ _ (by omega)]
      rw [hlen]
      have hri : t - (xs.length - h) < xs.length - (xs.length - h) := by omega
      rw [List.getD_eq_getElem _ _ (by simpa using hri), List.getElem_replicate]
    · rw [List.getD_eq_default]
      simp only [List.length_append, hlen, List.length_replicate]
      omega

lemma maskedPairs_congr : ∀ (mask col col' : List ℚ),
    col.length = col'.length →
    (∀ t, mask.getD t 0 ≠ 0 → col.getD t 0 = col'.getD t 0) →
    ((mask.zip col).filter (fun p => decide (p.1 ≠ 0))).map (fun p => p.2) =
    ((mask.zip col').filter (fun p => decide (p.1 ≠ 0))).map (fun p => p.2) := by
  intro mask
  induction mask with
  | nil => intro col col' _ _; rfl
  | cons mh mt ih =>
    intro col col' hlen hag
    cases col with
    | nil =>
      cases col' with
      | nil => rfl
      | cons y ys => simp at hlen
    | cons x xs =>
      cases col' with
      | nil => simp at hlen
      | cons y ys =>
        have hlen' : xs.length = ys.length := by simpa using hlen
        have hag' : ∀ t, mt.getD t 0 ≠ 0 → xs.getD t 0 = ys.getD t 0 := by
          intro t ht
          exact hag (t + 1) ht
        have htail := ih xs ys hlen' hag'
        simp only [ne_eq, decide_not] at htail ⊢
        by_cases hm : mh = 0
        · simp [List.zip_cons_cons, List.filter_cons, hm, htail]
        · have hxy : x = y := hag 0 (by simpa using hm)
          simp [List.zip_cons_cons, List.filter_cons, hm, htail, hxy]

lemma tnStats_congr (col col' mask : List ℚ)
    (hlen : col.length = col'.length)
    (hag : ∀ t, mask.getD t 0 ≠ 0 → col.getD t 0 = col'.getD t 0) :
    tnStats col mask = tnStats col' mask := by
  unfold tnStats
  rw [maskedPairs_congr mask col col' hlen hag]

lemma tnTransformSeries_stats_congr (xb xb' : List (List ℚ)) (mb : List ℚ)
    (hlen : xb.length = xb'.length)
    (hhead : (xb.headD []).length = (xb'.headD []).length)
    (hag : ∀ t, mb.getD t 0 ≠ 0 → xb.getD t [] = xb'.getD t []) :
    (tnTransformSeries xb mb).2 = (tnTransformSeries xb' mb).2 := by
  unfold tnTransformSeries
  simp only [hhead]
  have hstats : (List.range (xb'.headD []).length).map
      (fun c => tnStats (xb.map (fun row => row.getD c 0)) mb) =
      (List.range (xb'.headD []).length).map
      (fun c => tnStats (xb'.map (fun row => row.getD c 0)) mb) := by
    apply List.map_congr_left
    intro c _
    apply tnStats_congr
    · rw [List.length_map, List.length_map, hlen]
    · intro t ht
      by_cases htl : t < xb.length
      · rw [getD_map _ _ _ _ [] htl, getD_map _ _ _ _ [] (by omega)]
        rw [hag t ht]
      · rw [List.getD_eq_default _ _ (by rw [List.length_map]; omega),
          List.getD_eq_default _ _ (by rw [List.length_map]; omega)]
  rw [hstats]

lemma listMapIdx_cons (f : ℕ → α → β) (x : α) (xs : List α) :
    listMapIdx f (x :: xs) = f 0 x :: listMapIdx (fun i a => f (i + 1) a) xs := by
  unfold listMapIdx
  rw [List.length_cons, List.range_succ_eq_map, List.zip_cons_cons, List.map_cons]
  congr 1
  rw [List.zip_map_left, List.map_map]
  rfl

lemma listMapIdx_getElem (f : ℕ → α → β) (xs : List α) (i : ℕ)
    (h : i < (listMapIdx f xs).length) (hx : i < xs.length) :
    (listMapIdx f xs)[i] = f i xs[i] := by
  unfold listMapIdx at h ⊢
  rw [List.getElem_map, List.getElem_zip, List.getElem_range]

lemma maskColumn_getD (aidx : ℕ) (w : List (List ℚ)) (t : ℕ) (ht : t < w.length) :
    (maskColumn aidx w).getD t 0 = w[t].getD aidx 0 := by
  unfold maskColumn
  rw [List.getD_eq_getElem _ _ (by simpa using ht), List.getElem_map]

/-- Inject an arbitrary replacement value `f b t c` at every "masked
horizon position" of a `[windows, time, channels]` tensor: rows in the
trailing `h` timesteps of a window whose original `available_mask`
entry (channel `midx`) is zero. -/
def injectAtMaskedHorizon (h midx : ℕ) (f : ℕ → ℕ → ℕ → ℚ)
    (temporal : List (List (List ℚ))) : List (List (List ℚ)) :=
  listMapIdx (fun b w =>
    listMapIdx (fun t row =>
      if w.length - h ≤ t ∧ 0 < h ∧ row.getD midx 0 = 0 then
        listMapIdx (fun c _ => f b t c) row
      else row) w) temporal

/-- C4: the normalization statistics are blind to the forecast horizon —
replacing the values at any masked horizon positions by arbitrary
outliers leaves the shift and scale retained by the scaler unchanged,
because `_normalization` zeroes the trailing `h` entries of the mask it
hands to the scaler and the scaler reads only positions whose mask is
non-zero. -/
theorem c4_stats_ignore_masked_horizon (m : Model)
    (temporal : List (List (List ℚ))) (cols : List String)
    (st : Option (List (List ℚ))) (sc : Option (List String))
    (midx : ℕ) (f : ℕ → ℕ → ℕ → ℚ)
    (hmidx : get_loc cols "available_mask" = some midx) :
    (_normalization m ⟨injectAtMaskedHorizon m.h midx f temporal, cols, st, sc⟩).map
        (fun nr => (nr.x_shift, nr.x_scale)) =
      (_normalization m ⟨temporal, cols, st, sc⟩).map
        (fun nr => (nr.x_shift, nr.x_scale)) := by
  unfold _normalization
  simp only [hmidx, Except.map]
  set idxs := get_indexer cols (cols.filter (fun c => !(c == "available_mask"))) with hidxs
  have hIlen : (injectAtMaskedHorizon m.h midx f temporal).length = temporal.length := by
    unfold injectAtMaskedHorizon
    exact listMapIdx_length _ _
  have hIelem : ∀ b (hbI : b < (injectAtMaskedHorizon m.h midx f temporal).length)
      (hb : b < temporal.length),
      (injectAtMaskedHorizon m.h midx f temporal)[b] =
        listMapIdx (fun t row =>
          if temporal[b].length - m.h ≤ t ∧ 0 < m.h ∧ row.getD midx 0 = 0 then
            listMapIdx (fun c _ => f b t c) row
          else row) temporal[b] := by
    intro b hbI hb
    exact listMapIdx_getElem _ temporal b hbI hb
  have hMeq : (injectAtMaskedHorizon m.h midx f temporal).map
      (fun w => pyZeroTail m.h (maskColumn midx w)) =
      temporal.map (fun w => pyZeroTail m.h (maskColumn midx w)) := by
    apply List.ext_getElem
    · rw [List.length_map, List.length_map, hIlen]
    · intro b h1 h2
      have hb : b < temporal.length := by simpa using h2
      have hbI : b < (injectAtMaskedHorizon m.h midx f temporal).length := by
        rw [hIlen]
        exact hb
      rw [List.getElem_map, List.getElem_map, hIelem b hbI hb]
      set w := temporal[b] with hw
      set g := fun t row =>
        if w.length - m.h ≤ t ∧ 0 < m.h ∧ row.getD midx 0 = 0 then
          listMapIdx (fun c _ => f b t c) row
        else row with hg
      apply pyZeroTail_congr
      · unfold maskColumn
        rw [List.length_map, List.length_map, listMapIdx_length]
      · intro t hpos ht
        have hmlen : (maskColumn midx (listMapIdx g w)).length = w.length := by
          unfold maskColumn
          rw [List.length_map, listMapIdx_length]
        rw [hmlen] at ht
        have htw : t < w.length := by omega
        have htg : t < (listMapIdx g w).length := by
          rw [listMapIdx_length]
          exact htw
        rw [maskColumn_getD midx (listMapIdx g w) t htg,
          maskColumn_getD midx w t htw,
          listMapIdx_getElem g w t htg htw]
        have hgv : g t w[t] = w[t] := by
          rw [hg]
          exact if_neg (by rintro ⟨hle, -, -⟩; omega)
        rw [hgv]
  rw [hMeq]
  have hser : ∀ b (hbI : b < (injectAtMaskedHorizon m.h midx f temporal).length)
      (hb : b < temporal.length),
      (tnTransformSeries
        (((injectAtMaskedHorizon m.h midx f temporal)[b]).map
          (fun row => idxs.map (fun i => torchIndexQ row i)))
        (pyZeroTail m.h (maskColumn midx temporal[b]))).2 =
      (tnTransformSeries
        (temporal[b].map (fun row => idxs.map (fun i => torchIndexQ row i)))
        (pyZeroTail m.h (maskColumn midx temporal[b]))).2 := by
    intro b hbI hb
    rw [hIelem b hbI hb]
    set w := temporal[b] with hw
    set g := fun t row =>
      if w.length - m.h ≤ t ∧ 0 < m.h ∧ row.getD midx 0 = 0 then
        listMapIdx (fun c _ => f b t c) row
      else row with hg
    apply tnTransformSeries_stats_congr
    · rw [List.length_map, List.length_map, listMapIdx_length]
    · cases w with
      | nil => rfl
      | cons r rs =>
        rw [listMapIdx_cons, List.map_cons, List.map_cons]
        simp only [List.headD_cons]
        rw [List.length_map, List.length_map]
    · intro t hmt
      obtain ⟨hpos, htlt⟩ := pyZeroTail_getD_ne_zero _ _ _ hmt
      have hmlen : (maskColumn midx w).length = w.length := by
        unfold maskColumn
        rw [List.length_map]
      rw [hmlen] at htlt
      have htw : t < w.length := by omega
      have htg : t < (listMapIdx g w).length := by
        rw [listMapIdx_length]
        exact htw
      rw [getD_map (fun row => idxs.map (fun i => torchIndexQ row i))
          (listMapIdx g w) t [] [] htg,
        getD_map (fun row => idxs.map (fun i => torchIndexQ row i)) w t [] [] htw]
      rw [List.getD_eq_getElem _ _ htg, listMapIdx_getElem g w t htg htw]
      have hgv : g t w[t] = w[t] := by
        rw [hg]
        exact if_neg (by rintro ⟨hle, -, -⟩; omega)
      rw [hgv, List.getD_eq_getElem _ _ htw]
  have hcomp : ∀ g : List ℚ × List ℚ → List ℚ,
      ((((injectAtMaskedHorizon m.h midx f temporal).map
          (fun ww => ww.map (fun row => idxs.map (fun i => torchIndexQ row i)))).zip
        (temporal.map (fun ww => pyZeroTail m.h (maskColumn midx ww)))).map
        (fun p => tnTransformSeries p.1 p.2)).map (fun q => g q.2) =
      (((temporal.map (fun ww => ww.map (fun row => idxs.map (fun i => torchIndexQ row i)))).zip
        (temporal.map (fun ww => pyZeroTail m.h (maskColumn midx ww)))).map
        (fun p => tnTransformSeries p.1 p.2)).map (fun q => g q.2) := by
    intro g
    apply List.ext_getElem
    · simp [hIlen]
    · intro b h1 h2
      have hb : b < temporal.length := by
        rw [List.length_map, List.length_map, List.length_zip, List.length_map,
          List.length_map, hIlen, min_self] at h1
        exact h1
      have hbI : b < (injectAtMaskedHorizon m.h midx f temporal).length := by
        rw [hIlen]
        exact hb
      simp only [List.getElem_map, List.getElem_zip]
      exact congrArg g (hser b hbI hb)
  unfold tnTransform
  simp only [Except.ok.injEq, Prod.mk.injEq]
  constructor
  · have := hcomp (fun q => q.1)
    simpa [List.map_map, Function.comp] using this
  · have := hcomp (fun q => q.2)
    simpa [List.map_map, Function.comp] using this

/-- Witness for C4: injecting the outlier 999 at the masked horizon row
of a concrete window leaves shift and scale unchanged. -/
theorem c4_stats_ignore_masked_horizon_witness :
    (_normalization exModel ⟨injectAtMaskedHorizon exModel.h 1 (fun _ _ _ => 999)
        [[[1, 1], [2, 1], [5, 0]]], ["y", "available_mask"], none, none⟩).map
        (fun nr => (nr.x_shift, nr.x_scale)) =
      (_normalization exModel
        ⟨[[[1, 1], [2, 1], [5, 0]]], ["y", "available_mask"], none, none⟩).map
        (fun nr => (nr.x_shift, nr.x_scale)) :=
  c4_stats_ignore_masked_horizon exModel [[[1, 1], [2, 1], [5, 0]]]
    ["y", "available_mask"] none none 1 (fun _ _ _ => 999) (by decide)

end BaseWindows
